import Mathlib

/-!
Verification development for the Queez live-multiplayer quiz backend.

The definitions below are a shallow embedding of the session engine:
`app/services/session_manager.py`, `app/services/game_controller.py`,
`app/api/routes/websocket.py` and `app/api/routes/live_multiplayer.py`.
Python floats are modelled as rationals, Redis hashes / JSON objects as
insertion-ordered association lists, and the `async` handlers as pure
state-transition functions (each handler's read-modify-write section is
serialized by the per-session locks in the source, so a handler is one
atomic step).
-/

namespace Queez

/-- Session lifecycle status, the `status` field of the session hash
(`waiting`, `active`, `completed`). -/
inductive Status where
  | waiting
  | active
  | completed
deriving DecidableEq, Repr

/-- JSON value submitted as an answer: `null` (timeout), an integer index,
a list of indices (multiMcq) or a string-to-string map (dragAndDrop). -/
inductive AnswerValue where
  | nullAns
  | intAns (n : Int)
  | listAns (ns : List Int)
  | mapAns (m : List (String × String))
deriving DecidableEq, Repr

/-- A quiz question document (the fields the engine reads). -/
structure Question where
  qtype : String
  correctAnswerIndex : Option Int := none
  correctAnswerIndices : List Int := []
  correctMatches : List (String × String) := []
  timeLimit : Option ℚ := none
deriving DecidableEq, Repr

/-- One entry of a participant's `answers` array
(`{question_index, answer, timestamp, is_correct, points_earned}`). -/
structure AnswerRecord where
  question_index : Nat
  answer : AnswerValue
  timestamp : ℚ
  is_correct : Bool
  points_earned : Int
deriving DecidableEq, Repr

/-- A participant record inside the session's participants map. -/
structure Participant where
  user_id : String
  username : String
  joined_at : ℚ
  connected : Bool
  score : Int
  answers : List AnswerRecord
deriving DecidableEq, Repr

/-- Insertion-ordered string-keyed map, modelling a JSON object / Redis
key set.  Python dicts preserve insertion order, which matters for the
leaderboard's stable sort. -/
abbrev AList (α : Type) := List (String × α)

/-- Lookup of a key in an insertion-ordered map. -/
def alookup {α : Type} (k : String) : AList α → Option α
  | [] => none
  | (k', v) :: rest => if k' = k then some v else alookup k rest

/-- Update-or-append of a key, mirroring `d[k] = v` on a Python dict
(existing keys keep their position, new keys go to the end). -/
def aset {α : Type} (k : String) (v : α) : AList α → AList α
  | [] => [(k, v)]
  | (k', v') :: rest => if k' = k then (k, v) :: rest else (k', v') :: aset k v rest

/-- The session state kept in Redis: the `session:<code>` hash fields the
engine mutates, plus the per-player `participant:<code>:<user>:question_index`
keys and the cached quiz question list. -/
structure SessionState where
  host_id : String
  status : Status
  per_question_time_limit : Int
  questions : List Question
  participants : AList Participant
  questionIndexes : AList Nat
deriving DecidableEq, Repr

/-- Python `int(x)` on a float: truncation toward zero. -/
def pyInt (x : ℚ) : Int := if 0 ≤ x then ⌊x⌋ else ⌈x⌉

/-- Outcome of grading one answer against one question
(`is_correct`, and for multiMcq the clamped credit fraction;
`partCredit` is `some` exactly when the multiMcq grading branch ran,
mirroring the `'partial_credit' in locals()` test in the source). -/
structure GradeResult where
  is_correct : Bool
  partCredit : Option ℚ
deriving DecidableEq, Repr

/-- Python `int(answer)` as used on single-answer submissions: succeeds on
an integer, raises (modelled as `none`) otherwise. -/
def intOfAnswer : AnswerValue → Option Int
  | .intAns n => some n
  | _ => none

/-- The coercion `answer if isinstance(answer, list) else [answer]`
followed by `int(a)` on each element. -/
def userAnswerList : AnswerValue → Option (List Int)
  | .listAns ns => some ns
  | .intAns n => some [n]
  | _ => none

/-- Python dict equality for string-to-string maps (order-insensitive,
key-value equality). -/
def dictEq (m1 m2 : List (String × String)) : Bool :=
  (m1.map Prod.fst ++ m2.map Prod.fst).all
    (fun k => decide (alookup k m1 = alookup k m2))

/-- Grading section of `GameController._process_answer_internal`
(game_controller.py lines 194-250): dispatch on the question type,
with the `answer is None` timeout branch first. -/
def gradeAnswer (q : Question) (a : AnswerValue) : Except String GradeResult :=
  if a = .nullAns then
    .ok ⟨false, none⟩
  else if q.qtype = "singleMcq" ∨ q.qtype = "trueFalse" then
    match q.correctAnswerIndex with
    | none => .error "Invalid question configuration"
    | some c =>
      match intOfAnswer a with
      | none => .error "Failed to process answer, please try again"
      | some n => .ok ⟨decide (n = c), none⟩
  else if q.qtype = "multiMcq" then
    if q.correctAnswerIndices = [] then
      .error "Invalid question configuration"
    else
      match userAnswerList a with
      | none => .error "Failed to process answer, please try again"
      | some us =>
        let uset : Finset Int := us.toFinset
        let cset : Finset Int := q.correctAnswerIndices.toFinset
        let numCorrect : Nat := (uset ∩ cset).card
        let numWrong : Nat := (uset \ cset).card
        let pc : ℚ :=
          if 0 < cset.card then
            max 0 (min 1 (((numCorrect : ℚ) - (numWrong : ℚ)) / (cset.card : ℚ)))
          else 0
        .ok ⟨decide (uset = cset), some pc⟩
  else if q.qtype = "dragAndDrop" then
    if q.correctMatches = [] then
      .error "Invalid question configuration"
    else
      match a with
      | .mapAns m => .ok ⟨dictEq m q.correctMatches, none⟩
      | _ => .ok ⟨dictEq [] q.correctMatches, none⟩
  else
    .error "Unknown question type"

/-- Points awarded for one answer, with the time bonus and multiplier. -/
structure ScoreResult where
  points : Int
  time_bonus : Int
  multiplier : ℚ
deriving DecidableEq, Repr

/-- Scoring section of `_process_answer_internal` (lines 252-290):
base 1000 points, speed multiplier `max(1.0, 2.0 - elapsed/T)` where
`T` is the per-question time limit passed in, and for multiMcq the
credit fraction applied to the base before the bonus. -/
def computeScore (qtype : String) (g : GradeResult) (timestamp : ℚ) (qTimeLimit : ℚ) :
    ScoreResult :=
  if qtype = "multiMcq" ∧ g.partCredit.isSome then
    let pc := g.partCredit.getD 0
    let partPoints := pyInt (1000 * pc)
    if 0 < pc ∧ 0 ≤ timestamp then
      let elapsed := min timestamp qTimeLimit
      let m := max 1 (2 - elapsed / qTimeLimit)
      let bonus := pyInt ((partPoints : ℚ) * (m - 1))
      ⟨partPoints + bonus, bonus, m⟩
    else
      ⟨partPoints, 0, 1⟩
  else if g.is_correct then
    if 0 ≤ timestamp then
      let elapsed := min timestamp qTimeLimit
      let m := max 1 (2 - elapsed / qTimeLimit)
      let bonus := pyInt (1000 * (m - 1))
      ⟨1000 + bonus, bonus, m⟩
    else
      ⟨1000, 0, 1⟩
  else
    ⟨0, 0, 1⟩

/-- Per-player question index: `GameController.get_participant_question_index`
(game_controller.py lines 486-498) — the stored value, defaulting to 0 when
the Redis key was never set. -/
def getParticipantQuestionIndex (s : SessionState) (u : String) : Nat :=
  match alookup u s.questionIndexes with
  | some n => n
  | none => 0

/-- The response of a successful answer submission (the fields relevant to
the claims; the display-only `correct_answer`, `user_answer`,
`multiplier` (rounded to 2 decimals) and rounded credit percentage are
omitted). -/
structure SubmitResponse where
  is_correct : Bool
  points : Int
  time_bonus : Int
  new_total_score : Int
  question_type : String
  question_index : Nat
deriving DecidableEq, Repr

/-- Answer submission: the websocket host guard (websocket.py lines 461-469)
followed by `GameController._process_answer_internal`
(game_controller.py lines 150-406).  The per-user and session-wide locks
serialize the whole read-modify-write, so it is one atomic step; the
time-based rate limiter is not part of the state model.  On any error the
state is returned unchanged.  The scoring time limit is the question's own
`timeLimit` field, with the configured default `cfgT`
(`QUESTION_TIME_SECONDS`) as fallback (line 261). -/
def submitAnswer (cfgT : ℚ) (s : SessionState) (u : String) (a : AnswerValue) (ts : ℚ) :
    Except String SubmitResponse × SessionState :=
  if u = s.host_id then
    (.error "Host cannot participate in quiz", s)
  else
    let i := getParticipantQuestionIndex s u
    match s.questions[i]? with
    | none => (.error "Invalid question index", s)
    | some q =>
      match gradeAnswer q a with
      | .error e => (.error e, s)
      | .ok g =>
        let sc := computeScore q.qtype g ts (q.timeLimit.getD cfgT)
        match alookup u s.participants with
        | none => (.error "Participant not found", s)
        | some p =>
          if p.answers.any (fun ar => ar.question_index = i) then
            (.error "Already answered", s)
          else
            let p' : Participant :=
              { p with
                answers := p.answers ++ [⟨i, a, ts, g.is_correct, sc.points⟩],
                score := p.score + sc.points }
            let s' : SessionState :=
              { s with
                participants := aset u p' s.participants,
                questionIndexes := aset u (i + 1) s.questionIndexes }
            (.ok ⟨g.is_correct, sc.points, sc.time_bonus, p'.score, q.qtype, i⟩, s')

/-- `SessionManager.add_participant` (session_manager.py lines 79-158):
reject the host; upsert the participant, preserving `score` and `answers`
and flipping `connected` on reconnect. -/
def addParticipant (s : SessionState) (u username : String) (now : ℚ) :
    Bool × SessionState :=
  if u = s.host_id then
    (false, s)
  else
    match alookup u s.participants with
    | some p =>
      let p' : Participant := { p with connected := true, username := username }
      (true, { s with participants := aset u p' s.participants })
    | none =>
      let p' : Participant := ⟨u, username, now, true, 0, []⟩
      (true, { s with participants := aset u p' s.participants })

/-- Websocket `handle_join` (websocket.py lines 146-286), restricted to its
state effects: the host path mutates nothing; a non-host join is rejected
unless the session is `waiting` or the user is reconnecting; on success the
participant is upserted, and a late joiner to an active session whose index
key is unset gets index 0. -/
def wsJoin (s : SessionState) (u username : String) (now : ℚ) :
    Except String Unit × SessionState :=
  if u = s.host_id then
    (.ok (), s)
  else
    let isReconnecting := (alookup u s.participants).isSome
    if s.status ≠ .waiting ∧ ¬ isReconnecting then
      (.error "Session is already active", s)
    else
      let res := addParticipant s u username now
      if res.1 then
        let s1 := res.2
        if s1.status = .active ∧ alookup u s1.questionIndexes = none ∧ ¬ isReconnecting then
          (.ok (), { s1 with questionIndexes := aset u 0 s1.questionIndexes })
        else
          (.ok (), s1)
      else
        (.error "Failed to join session", s)

/-- REST `join_session` (live_multiplayer.py lines 128-166): reject a new
user when the quiz has started, then `add_participant` (which rejects the
host); no index initialization. -/
def restJoin (s : SessionState) (u username : String) (now : ℚ) :
    Except String Unit × SessionState :=
  if s.status ≠ .waiting ∧ (alookup u s.participants).isNone then
    (.error "Quiz has already started", s)
  else
    let res := addParticipant s u username now
    if res.1 then (.ok (), res.2) else (.error "Failed to join session", res.2)

/-- `SessionManager.remove_participant` (session_manager.py lines 160-168):
mark the participant as disconnected; never delete the record. -/
def disconnectParticipant (s : SessionState) (u : String) : SessionState :=
  match alookup u s.participants with
  | some p =>
    { s with participants := aset u { p with connected := false } s.participants }
  | none => s

/-- Reset every rostered participant's question index to 0, as the
`for participant_id in participants.keys()` loop in `handle_start_quiz`
(websocket.py lines 416-417) does. -/
def resetIndexes (parts : AList Participant) (idx : AList Nat) : AList Nat :=
  parts.foldl (fun acc kv => aset kv.1 0 acc) idx

/-- Websocket `handle_start_quiz` (websocket.py lines 343-454): host-only,
needs questions and participants, rejects `active` and `completed`
sessions, stores the host's per-question time limit, transitions to
`active` (via `SessionManager.start_session`) and initializes every
participant's index to 0. -/
def wsStartQuiz (s : SessionState) (u : String) (tl : Int) :
    Except String Unit × SessionState :=
  if u ≠ s.host_id then
    (.error "Only host can start the quiz", s)
  else if s.questions.length = 0 then
    (.error "Cannot start quiz: No questions found", s)
  else if s.participants.isEmpty then
    (.error "Cannot start quiz: No participants have joined", s)
  else if s.status = .active then
    (.error "Quiz has already started", s)
  else if s.status = .completed then
    (.error "Quiz has already ended", s)
  else
    (.ok (), { s with
      per_question_time_limit := tl,
      status := .active,
      questionIndexes := resetIndexes s.participants s.questionIndexes })

/-- REST `start_quiz_session` (live_multiplayer.py lines 173-196): checks
only that the caller is the host, then `SessionManager.start_session`
(session_manager.py lines 170-191), which sets `status = active`
unconditionally — with no check of the current status. -/
def restStartQuiz (s : SessionState) (u : String) :
    Except String Unit × SessionState :=
  if u ≠ s.host_id then
    (.error "Only host can start", s)
  else
    (.ok (), { s with status := .active })

/-- `SessionManager.end_session` guarded by the host checks of
`handle_end_quiz` / REST `end_quiz_session`: sets `status = completed`. -/
def endQuiz (s : SessionState) (u : String) :
    Except String Unit × SessionState :=
  if u ≠ s.host_id then
    (.error "Only host can end the quiz", s)
  else
    (.ok (), { s with status := .completed })

/-- The operations that touch the session status, roster, scores or
answers, as reachable through the websocket and REST handlers. -/
inductive Op where
  | wsJoinOp (u username : String) (now : ℚ)
  | restJoinOp (u username : String) (now : ℚ)
  | disconnectOp (u : String)
  | wsStartOp (u : String) (tl : Int)
  | restStartOp (u : String)
  | endOp (u : String)
  | submitOp (u : String) (a : AnswerValue) (ts : ℚ)
deriving DecidableEq

/-- One handler invocation: result and successor state. -/
def stepR (cfgT : ℚ) (s : SessionState) : Op → Except String Unit × SessionState
  | .wsJoinOp u username now => wsJoin s u username now
  | .restJoinOp u username now => restJoin s u username now
  | .disconnectOp u => (.ok (), disconnectParticipant s u)
  | .wsStartOp u tl => wsStartQuiz s u tl
  | .restStartOp u => restStartQuiz s u
  | .endOp u => endQuiz s u
  | .submitOp u a ts =>
    let r := submitAnswer cfgT s u a ts
    (r.1.map (fun _ => ()), r.2)

/-- Successor state of one handler invocation. -/
def stepState (cfgT : ℚ) (s : SessionState) (op : Op) : SessionState :=
  (stepR cfgT s op).2

/-- `SessionManager.create_session` (session_manager.py lines 20-51): a
fresh session starts `waiting` with an empty roster. -/
def initialState (quiz : List Question) (host : String) (tl : Int) : SessionState :=
  ⟨host, .waiting, tl, quiz, [], []⟩

/-- States reachable from a fresh session through the handlers. -/
inductive Reachable (cfgT : ℚ) : SessionState → Prop where
  | init : ∀ quiz host tl, Reachable cfgT (initialState quiz host tl)
  | next : ∀ s op, Reachable cfgT s → Reachable cfgT (stepState cfgT s op)

/-- One leaderboard row as built by `handle_request_leaderboard`
(websocket.py lines 774-791).  `joined_at` is carried along from the
participant record to state ordering properties (the wire payload does
not include it). -/
structure LBEntry where
  user_id : String
  username : String
  score : Int
  question_index : Nat
  answered_count : Nat
  total_questions : Nat
  connected : Bool
  joined_at : ℚ
deriving DecidableEq, Repr

/-- The leaderboard rows in roster (dict-insertion) order, before sorting. -/
def leaderboardEntries (s : SessionState) : List LBEntry :=
  s.participants.map fun kv =>
    ⟨kv.1, kv.2.username, kv.2.score, getParticipantQuestionIndex s kv.1,
      kv.2.answers.length, s.questions.length, kv.2.connected, kv.2.joined_at⟩

/-- Stable descending insertion by score: an element is placed before the
first earlier-sorted element of strictly smaller or equal-later score.
This is the unique stable sort by `score` descending, i.e. the semantics
of Python's `list.sort(key=lambda x: x["score"], reverse=True)`. -/
def insertDesc (x : LBEntry) : List LBEntry → List LBEntry
  | [] => [x]
  | y :: ys => if y.score ≤ x.score then x :: y :: ys else y :: insertDesc x ys

/-- Stable sort by score descending (insertion sort). -/
def sortScoreDesc : List LBEntry → List LBEntry
  | [] => []
  | x :: xs => insertDesc x (sortScoreDesc xs)

/-- `handle_request_leaderboard` (websocket.py lines 758-803): build the
rows in roster order, then `sort(key=score, reverse=True)` — a stable
sort on score alone. -/
def requestLeaderboard (s : SessionState) : List LBEntry :=
  sortScoreDesc (leaderboardEntries s)

/-- Modelled from the spec: the leaderboard ordering the spec prescribes —
`score` descending, ties broken by `answered_count` descending then
`joined_at` ascending.  Used only to compare against the code's sort. -/
def specLeaderboardLE (a b : LBEntry) : Prop :=
  b.score < a.score ∨
    (b.score = a.score ∧
      (b.answered_count < a.answered_count ∨
        (b.answered_count = a.answered_count ∧ a.joined_at ≤ b.joined_at)))

instance (a b : LBEntry) : Decidable (specLeaderboardLE a b) := by
  unfold specLeaderboardLE; infer_instance

/-- Modelled from the spec: the speed multiplier with `T` taken as the
session's `per_question_time_limit` ("the host's value fixed at start"),
as claim C2 states it.  Used only to compare against the code's scoring. -/
def specSessionMultiplier (ts : ℚ) (sessionT : ℚ) : ℚ :=
  max 1 (2 - min ts sessionT / sessionT)

/-- Modelled from the spec: the points a correct single-answer submission
would earn if the bonus used the session's time limit. -/
def specSessionPoints (ts : ℚ) (sessionT : ℚ) : Int :=
  1000 + pyInt (1000 * (specSessionMultiplier ts sessionT - 1))

/-- Numeric rank of a status along the documented lifecycle. -/
def statusRank : Status → Nat
  | .waiting => 0
  | .active => 1
  | .completed => 2

/-! Basic lemmas about the insertion-ordered map. -/

theorem alookup_aset {α : Type} (k k' : String) (v : α) (l : AList α) :
    alookup k' (aset k v l) = if k = k' then some v else alookup k' l := by
  induction l with
  | nil =>
    by_cases h : k = k' <;> simp [aset, alookup, h]
  | cons hd tl ih =>
    obtain ⟨k0, v0⟩ := hd
    by_cases h0 : k0 = k
    · subst h0
      by_cases h : k0 = k' <;> simp [aset, alookup, h, ih]
    · by_cases h : k0 = k'
      · subst h
        have : ¬ k = k0 := fun he => h0 he.symm
        simp [aset, alookup, h0, this]
      · simp [aset, alookup, h0, h, ih]

theorem alookup_aset_self {α : Type} (k : String) (v : α) (l : AList α) :
    alookup k (aset k v l) = some v := by
  simp [alookup_aset]

theorem alookup_aset_ne {α : Type} {k k' : String} (v : α) (l : AList α)
    (h : k ≠ k') : alookup k' (aset k v l) = alookup k' l := by
  simp [alookup_aset, h]

theorem alookup_mem_keys {α : Type} {k : String} {p : α} {l : AList α}
    (h : alookup k l = some p) : l.any (fun kv => kv.1 = k) = true := by
  induction l with
  | nil => simp [alookup] at h
  | cons hd tl ih =>
    obtain ⟨k0, v0⟩ := hd
    by_cases h0 : k0 = k
    · simp [h0]
    · simp only [alookup, h0, if_false] at h
      simp [List.any_cons, ih h]

theorem keys_mem_alookup {α : Type} {k : String} {l : AList α}
    (h : l.any (fun kv => kv.1 = k) = true) : (alookup k l).isSome = true := by
  induction l with
  | nil => simp at h
  | cons hd tl ih =>
    obtain ⟨k0, v0⟩ := hd
    by_cases h0 : k0 = k
    · simp [alookup, h0]
    · simp only [List.any_cons, decide_eq_true_eq, h0, false_or, Bool.false_or] at h
      simp [alookup, h0, ih h]

theorem lookup_resetIndexes (ps : AList Participant) (idx : AList Nat) (u : String) :
    alookup u (resetIndexes ps idx) =
      if ps.any (fun kv => kv.1 = u) then some 0 else alookup u idx := by
  induction ps generalizing idx with
  | nil => simp [resetIndexes]
  | cons hd tl ih =>
    obtain ⟨k0, v0⟩ := hd
    show alookup u (resetIndexes tl (aset k0 0 idx)) = _
    rw [ih]
    by_cases h0 : k0 = u
    · subst h0
      by_cases ht : tl.any (fun kv => kv.1 = k0) <;>
        simp [ht, alookup_aset_self]
    · by_cases ht : tl.any (fun kv => kv.1 = u) <;>
        simp [ht, h0, alookup_aset_ne _ _ h0]

/-! Lemmas about the stable descending sort. -/

theorem insertDesc_perm (x : LBEntry) (l : List LBEntry) :
    List.Perm (insertDesc x l) (x :: l) := by
  induction l with
  | nil => simp [insertDesc]
  | cons y ys ih =>
    by_cases h : y.score ≤ x.score
    · simp [insertDesc, h]
    · simp only [insertDesc, h, if_false]
      exact ((ih.cons y).trans (List.Perm.swap x y ys))

theorem sortScoreDesc_perm (l : List LBEntry) :
    List.Perm (sortScoreDesc l) l := by
  induction l with
  | nil => simp [sortScoreDesc]
  | cons x xs ih =>
    exact (insertDesc_perm x (sortScoreDesc xs)).trans (ih.cons x)

theorem insertDesc_sorted (x : LBEntry) (l : List LBEntry)
    (h : l.Pairwise (fun a b => b.score ≤ a.score)) :
    (insertDesc x l).Pairwise (fun a b => b.score ≤ a.score) := by
  induction l with
  | nil => simp [insertDesc]
  | cons y ys ih =>
    rcases List.pairwise_cons.mp h with ⟨hy, hys⟩
    by_cases hle : y.score ≤ x.score
    · simp only [insertDesc, hle, if_true]
      refine List.pairwise_cons.mpr ⟨?_, h⟩
      intro b hb
      rcases List.mem_cons.mp hb with rfl | hb
      · exact hle
      · exact le_trans (hy b hb) hle
    · simp only [insertDesc, hle, if_false]
      refine List.pairwise_cons.mpr ⟨?_, ih hys⟩
      intro b hb
      have hb' := (insertDesc_perm x ys).mem_iff.mp hb
      rcases List.mem_cons.mp hb' with rfl | hb'
      · exact le_of_not_le hle
      · exact hy b hb'

theorem sortScoreDesc_sorted (l : List LBEntry) :
    (sortScoreDesc l).Pairwise (fun a b => b.score ≤ a.score) := by
  induction l with
  | nil => simp [sortScoreDesc]
  | cons x xs ih => exact insertDesc_sorted x (sortScoreDesc xs) ih

/-! Characterization of a successful answer submission. -/

/-- The participant record written by a successful submission. -/
def recordAnswer (p : Participant) (i : Nat) (a : AnswerValue) (ts : ℚ)
    (g : GradeResult) (pts : Int) : Participant :=
  { p with
    answers := p.answers ++ [⟨i, a, ts, g.is_correct, pts⟩],
    score := p.score + pts }

theorem submitAnswer_ok_spec {cfgT : ℚ} {s : SessionState} {u : String}
    {a : AnswerValue} {ts : ℚ} {r : SubmitResponse} {s' : SessionState}
    (h : submitAnswer cfgT s u a ts = (.ok r, s')) :
    ∃ q g p,
      u ≠ s.host_id ∧
      s.questions[getParticipantQuestionIndex s u]? = some q ∧
      gradeAnswer q a = .ok g ∧
      alookup u s.participants = some p ∧
      p.answers.any
        (fun ar => ar.question_index = getParticipantQuestionIndex s u) = false ∧
      r = ⟨g.is_correct,
           (computeScore q.qtype g ts (q.timeLimit.getD cfgT)).points,
           (computeScore q.qtype g ts (q.timeLimit.getD cfgT)).time_bonus,
           p.score + (computeScore q.qtype g ts (q.timeLimit.getD cfgT)).points,
           q.qtype, getParticipantQuestionIndex s u⟩ ∧
      s' = { s with
             participants := aset u
               (recordAnswer p (getParticipantQuestionIndex s u) a ts g
                 (computeScore q.qtype g ts (q.timeLimit.getD cfgT)).points)
               s.participants,
             questionIndexes :=
               aset u (getParticipantQuestionIndex s u + 1) s.questionIndexes } := by
  by_cases hhost : u = s.host_id
  · simp [submitAnswer, hhost] at h
  · rcases hq : s.questions[getParticipantQuestionIndex s u]? with _ | q
    · simp [submitAnswer, hhost, hq] at h
    · rcases hg : gradeAnswer q a with e | g
      · simp [submitAnswer, hhost, hq, hg] at h
      · rcases hp : alookup u s.participants with _ | p
        · simp [submitAnswer, hhost, hq, hg, hp] at h
        · by_cases hdup :
            (p.answers.any fun ar =>
              ar.question_index = getParticipantQuestionIndex s u) = true
          · simp [submitAnswer, hhost, hq, hg, hp, hdup] at h
          · simp only [submitAnswer, hhost, hq, hg, hp, hdup, if_false,
              Bool.false_eq_true, if_neg, ite_false] at h
            injection h with h1 h2
            injection h1 with h1
            refine ⟨q, g, p, hhost, by simp, hg, by simp, by simpa using hdup, ?_, ?_⟩
            · exact h1.symm
            · rw [← h2]
              simp [recordAnswer]

/-- Every error branch of the submission pipeline leaves the state
untouched. -/
theorem submitAnswer_error_state {cfgT : ℚ} {s : SessionState} {u : String}
    {a : AnswerValue} {ts : ℚ} {e : String} {s' : SessionState}
    (h : submitAnswer cfgT s u a ts = (.error e, s')) : s' = s := by
  by_cases hhost : u = s.host_id
  · simp [submitAnswer, hhost] at h
    exact h.2.symm
  · rcases hq : s.questions[getParticipantQuestionIndex s u]? with _ | q
    · simp [submitAnswer, hhost, hq] at h
      exact h.2.symm
    · rcases hg : gradeAnswer q a with e' | g
      · simp [submitAnswer, hhost, hq, hg] at h
        exact h.2.symm
      · rcases hp : alookup u s.participants with _ | p
        · simp [submitAnswer, hhost, hq, hg, hp] at h
          exact h.2.symm
        · by_cases hdup :
            (p.answers.any fun ar =>
              ar.question_index = getParticipantQuestionIndex s u) = true
          · simp [submitAnswer, hhost, hq, hg, hp, hdup] at h
            exact h.2.symm
          · simp [submitAnswer, hhost, hq, hg, hp, hdup] at h

/-! The roster/answers/index invariant used for claim C4. -/

/-- A participant's answers array holds exactly the records for question
indices `0, 1, …, len-1` in order, and the player's stored index `n` never
exceeds the number of answers. -/
def ParticipantOK (n : Nat) (p : Participant) : Prop :=
  p.answers.map (fun ar => ar.question_index) = List.range p.answers.length ∧
  n ≤ p.answers.length

/-- State invariant: every rostered participant is well-formed, and a
question-index key exists only for rostered users. -/
def Inv (s : SessionState) : Prop :=
  (∀ u p, alookup u s.participants = some p →
    ParticipantOK (getParticipantQuestionIndex s u) p) ∧
  (∀ u n, alookup u s.questionIndexes = some n →
    (alookup u s.participants).isSome = true)

theorem inv_initial (quiz : List Question) (host : String) (tl : Int) :
    Inv (initialState quiz host tl) := by
  constructor
  · intro u p h
    simp [initialState, alookup] at h
  · intro u n h
    simp [initialState, alookup] at h

theorem inv_addParticipant {s : SessionState} (hinv : Inv s)
    (u username : String) (now : ℚ) :
    Inv (addParticipant s u username now).2 := by
  obtain ⟨h1, h2⟩ := hinv
  by_cases hhost : u = s.host_id
  · simpa [addParticipant, hhost] using ⟨h1, h2⟩
  · rcases hp : alookup u s.participants with _ | p
    · -- brand-new participant: empty answers, and by Inv the index key is unset
      have hidx : alookup u s.questionIndexes = none := by
        rcases hi : alookup u s.questionIndexes with _ | n
        · rfl
        · have := h2 u n hi
          rw [hp] at this
          simp at this
      constructor
      · intro w pw hw
        simp only [addParticipant, hhost, hp] at hw ⊢
        rw [if_neg (by trivial)] at hw ⊢
        by_cases hwu : u = w
        · subst hwu
          rw [alookup_aset_self] at hw
          cases hw
          constructor
          · simp
          · simp [getParticipantQuestionIndex, hidx]
        · rw [alookup_aset_ne _ _ hwu] at hw
          exact h1 w pw hw
      · intro w n hw
        simp only [addParticipant, hhost, hp] at hw ⊢
        rw [if_neg (by trivial)] at hw ⊢
        by_cases hwu : u = w
        · subst hwu
          simp [alookup_aset_self]
        · rw [alookup_aset_ne _ _ hwu]
          exact h2 w n hw
    · -- reconnect: answers and score preserved
      constructor
      · intro w pw hw
        simp only [addParticipant, hhost, hp] at hw ⊢
        rw [if_neg (by trivial)] at hw ⊢
        by_cases hwu : u = w
        · subst hwu
          rw [alookup_aset_self] at hw
          cases hw
          have := h1 u p hp
          simpa [ParticipantOK] using this
        · rw [alookup_aset_ne _ _ hwu] at hw
          exact h1 w pw hw
      · intro w n hw
        simp only [addParticipant, hhost, hp] at hw ⊢
        rw [if_neg (by trivial)] at hw ⊢
        by_cases hwu : u = w
        · subst hwu
          simp [alookup_aset_self]
        · rw [alookup_aset_ne _ _ hwu]
          exact h2 w n hw

theorem addParticipant_fst {s : SessionState} {u : String}
    (hhost : ¬ u = s.host_id) (username : String) (now : ℚ) :
    (addParticipant s u username now).1 = true := by
  rcases hp : alookup u s.participants with _ | p <;>
    simp [addParticipant, hhost, hp]

theorem inv_wsJoin {s : SessionState} (hinv : Inv s)
    (u username : String) (now : ℚ) :
    Inv (wsJoin s u username now).2 := by
  by_cases hhost : u = s.host_id
  · simpa [wsJoin, hhost] using hinv
  · by_cases hrej : s.status ≠ .waiting ∧ ¬ (alookup u s.participants).isSome
    · simpa [wsJoin, hhost, hrej] using hinv
    · have hadd := inv_addParticipant hinv u username now
      have hfst := addParticipant_fst hhost username now
      by_cases hlate : (addParticipant s u username now).2.status = .active ∧
          alookup u (addParticipant s u username now).2.questionIndexes = none ∧
          ¬ (alookup u s.participants).isSome
      · -- the late-joiner branch also initializes the index key to 0
        have hupart : (alookup u (addParticipant s u username now).2.participants).isSome := by
          rcases hp : alookup u s.participants with _ | p
          · simp [addParticipant, hhost, hp, alookup_aset_self]
          · simp [addParticipant, hhost, hp, alookup_aset_self]
        obtain ⟨g1, g2⟩ := hadd
        have hstate : (wsJoin s u username now).2 =
            { (addParticipant s u username now).2 with
              questionIndexes := aset u 0 (addParticipant s u username now).2.questionIndexes } := by
          simp only [wsJoin, hhost]
          rw [if_neg (by trivial), if_neg (by simpa using hrej), if_pos hfst,
            if_pos (by simpa using hlate)]
        rw [hstate]
        constructor
        · intro w pw hw
          simp only at hw
          by_cases hwu : u = w
          · subst hwu
            have := g1 u pw hw
            refine ⟨this.1, ?_⟩
            simp [getParticipantQuestionIndex, alookup_aset_self]
          · have := g1 w pw hw
            refine ⟨this.1, ?_⟩
            simpa [getParticipantQuestionIndex, alookup_aset_ne _ _ hwu] using this.2
        · intro w n hw
          simp only at hw
          by_cases hwu : u = w
          · subst hwu
            simpa using hupart
          · rw [alookup_aset_ne _ _ hwu] at hw
            exact g2 w n hw
      · have hstate : (wsJoin s u username now).2 = (addParticipant s u username now).2 := by
          simp only [wsJoin, hhost]
          rw [if_neg (by trivial), if_neg (by simpa using hrej), if_pos hfst,
            if_neg (by simpa using hlate)]
        rw [hstate]
        exact hadd

theorem inv_restJoin {s : SessionState} (hinv : Inv s)
    (u username : String) (now : ℚ) :
    Inv (restJoin s u username now).2 := by
  by_cases hrej : s.status ≠ .waiting ∧ (alookup u s.participants).isNone
  · simpa [restJoin, hrej] using hinv
  · have hadd := inv_addParticipant hinv u username now
    have hstate : (restJoin s u username now).2 = (addParticipant s u username now).2 := by
      simp only [restJoin]
      rw [if_neg (by simpa using hrej)]
      by_cases hok : (addParticipant s u username now).1 = true <;> simp [hok]
    rw [hstate]
    exact hadd

theorem inv_disconnect {s : SessionState} (hinv : Inv s) (u : String) :
    Inv (disconnectParticipant s u) := by
  obtain ⟨h1, h2⟩ := hinv
  rcases hp : alookup u s.participants with _ | p
  · simpa [disconnectParticipant, hp] using ⟨h1, h2⟩
  · constructor
    · intro w pw hw
      simp only [disconnectParticipant, hp] at hw ⊢
      by_cases hwu : u = w
      · subst hwu
        rw [alookup_aset_self] at hw
        cases hw
        have := h1 u p hp
        simpa [ParticipantOK] using this
      · rw [alookup_aset_ne _ _ hwu] at hw
        exact h1 w pw hw
    · intro w n hw
      simp only [disconnectParticipant, hp] at hw ⊢
      by_cases hwu : u = w
      · subst hwu
        simp [alookup_aset_self]
      · rw [alookup_aset_ne _ _ hwu]
        exact h2 w n hw

theorem inv_wsStart {s : SessionState} (hinv : Inv s) (u : String) (tl : Int) :
    Inv (wsStartQuiz s u tl).2 := by
  obtain ⟨h1, h2⟩ := hinv
  by_cases hhost : u ≠ s.host_id
  · simpa [wsStartQuiz, hhost] using ⟨h1, h2⟩
  · by_cases hq : s.questions.length = 0
    · simpa [wsStartQuiz, hhost, hq] using ⟨h1, h2⟩
    · by_cases hps : s.participants.isEmpty
      · simpa [wsStartQuiz, hhost, hq, hps] using ⟨h1, h2⟩
      · by_cases hact : s.status = .active
        · simpa [wsStartQuiz, hhost, hq, hps, hact] using ⟨h1, h2⟩
        · by_cases hcomp : s.status = .completed
          · simpa [wsStartQuiz, hhost, hq, hps, hact, hcomp] using ⟨h1, h2⟩
          · have hstate : (wsStartQuiz s u tl).2 = { s with per_question_time_limit := tl, status := .active, questionIndexes := resetIndexes s.participants s.questionIndexes } := by
              simp [wsStartQuiz, hhost, hq, hps, hact, hcomp]
            rw [hstate]
            constructor
            · intro w pw hw
              simp only at hw
              have hmem := alookup_mem_keys hw
              refine ⟨(h1 w pw hw).1, ?_⟩
              simp [getParticipantQuestionIndex, lookup_resetIndexes, hmem]
            · intro w n hw
              simp only at hw
              rw [lookup_resetIndexes] at hw
              by_cases hmem : s.participants.any (fun kv => kv.1 = w)
              · simpa using keys_mem_alookup hmem
              · rw [if_neg (by simpa using hmem)] at hw
                exact h2 w n hw

theorem inv_restStart {s : SessionState} (hinv : Inv s) (u : String) :
    Inv (restStartQuiz s u).2 := by
  obtain ⟨h1, h2⟩ := hinv
  by_cases hhost : u ≠ s.host_id
  · simpa [restStartQuiz, hhost] using ⟨h1, h2⟩
  · constructor
    · intro w pw hw
      simp only [restStartQuiz, hhost] at hw ⊢
      rw [if_neg (by trivial)] at hw ⊢
      exact h1 w pw hw
    · intro w n hw
      simp only [restStartQuiz, hhost] at hw ⊢
      rw [if_neg (by trivial)] at hw ⊢
      exact h2 w n hw

theorem inv_end {s : SessionState} (hinv : Inv s) (u : String) :
    Inv (endQuiz s u).2 := by
  obtain ⟨h1, h2⟩ := hinv
  by_cases hhost : u ≠ s.host_id
  · simpa [endQuiz, hhost] using ⟨h1, h2⟩
  · constructor
    · intro w pw hw
      simp only [endQuiz, hhost] at hw ⊢
      rw [if_neg (by trivial)] at hw ⊢
      exact h1 w pw hw
    · intro w n hw
      simp only [endQuiz, hhost] at hw ⊢
      rw [if_neg (by trivial)] at hw ⊢
      exact h2 w n hw

theorem submit_index_eq_length {s : SessionState} (hinv : Inv s)
    {u : String} {p : Participant}
    (hp : alookup u s.participants = some p)
    (hdup : (p.answers.any
      (fun ar => ar.question_index = getParticipantQuestionIndex s u)) = false) :
    getParticipantQuestionIndex s u = p.answers.length := by
  obtain ⟨hmap, hle⟩ := hinv.1 u p hp
  rcases lt_or_eq_of_le hle with hlt | heq
  · exfalso
    have hmem : getParticipantQuestionIndex s u ∈
        p.answers.map (fun ar => ar.question_index) := by
      rw [hmap]
      exact List.mem_range.mpr hlt
    obtain ⟨ar, har, hari⟩ := List.mem_map.mp hmem
    have : p.answers.any
        (fun ar => ar.question_index = getParticipantQuestionIndex s u) = true :=
      List.any_eq_true.mpr ⟨ar, har, by simp [hari]⟩
    rw [this] at hdup
    cases hdup
  · exact heq

theorem inv_submit {cfgT : ℚ} {s : SessionState} (hinv : Inv s)
    (u : String) (a : AnswerValue) (ts : ℚ) :
    Inv (submitAnswer cfgT s u a ts).2 := by
  rcases hsub : submitAnswer cfgT s u a ts with ⟨res, s'⟩
  rcases res with e | r
  · have := submitAnswer_error_state hsub
    subst this
    exact hinv
  · obtain ⟨q, g, p, hhost, hq, hg, hp, hdup, hr, hs'⟩ := submitAnswer_ok_spec hsub
    have hieq := submit_index_eq_length hinv hp hdup
    obtain ⟨h1, h2⟩ := hinv
    subst hs'
    constructor
    · intro w pw hw
      simp only at hw
      by_cases hwu : u = w
      · subst hwu
        rw [alookup_aset_self] at hw
        cases hw
        constructor
        · simp only [recordAnswer, List.map_append, List.length_append,
            (h1 u p hp).1, List.map_cons, List.map_nil]
          rw [hieq, List.length_cons, List.length_nil]
          exact (List.range_succ (n := p.answers.length)).symm
        · simp [recordAnswer, getParticipantQuestionIndex, alookup_aset_self]
          exact le_of_eq hieq
      · rw [alookup_aset_ne _ _ hwu] at hw
        have := h1 w pw hw
        refine ⟨this.1, ?_⟩
        simpa [getParticipantQuestionIndex, alookup_aset_ne _ _ hwu] using this.2
    · intro w n hw
      simp only at hw
      by_cases hwu : u = w
      · subst hwu
        simp [alookup_aset_self]
      · rw [alookup_aset_ne _ _ hwu] at hw
        rw [alookup_aset_ne _ _ hwu]
        exact h2 w n hw

theorem inv_step {cfgT : ℚ} {s : SessionState} (hinv : Inv s) (op : Op) :
    Inv (stepState cfgT s op) := by
  cases op with
  | wsJoinOp u username now => exact inv_wsJoin hinv u username now
  | restJoinOp u username now => exact inv_restJoin hinv u username now
  | disconnectOp u => exact inv_disconnect hinv u
  | wsStartOp u tl => exact inv_wsStart hinv u tl
  | restStartOp u => exact inv_restStart hinv u
  | endOp u => exact inv_end hinv u
  | submitOp u a ts => exact inv_submit hinv u a ts

theorem reachable_inv {cfgT : ℚ} {s : SessionState} (h : Reachable cfgT s) :
    Inv s := by
  induction h with
  | init quiz host tl => exact inv_initial quiz host tl
  | next s op _ ih => exact inv_step ih op

/-! Further helper lemmas. -/

theorem wsJoin_reconnect {s : SessionState} {u : String} {p : Participant}
    (hp : alookup u s.participants = some p) (hu : ¬ u = s.host_id)
    (username : String) (now : ℚ) :
    wsJoin s u username now =
      (.ok (), { s with participants := aset u { p with connected := true, username := username } s.participants }) := by
  have hrej : ¬ (s.status ≠ .waiting ∧ ¬ (alookup u s.participants).isSome = true) := by
    simp [hp]
  have hfst := addParticipant_fst hu username now
  have hadd : addParticipant s u username now =
      (true, { s with participants := aset u { p with connected := true, username := username } s.participants }) := by
    simp [addParticipant, hu, hp]
  have hlate : ¬ ((addParticipant s u username now).2.status = .active ∧
      alookup u (addParticipant s u username now).2.questionIndexes = none ∧
      ¬ (alookup u s.participants).isSome = true) := by
    simp [hp]
  simp only [wsJoin, hu]
  rw [if_neg (by trivial), if_neg hrej, if_pos hfst, if_neg hlate, hadd]

theorem countP_eq_one_of_map_range {l : List AnswerRecord}
    (h : l.map (fun ar => ar.question_index) = List.range l.length)
    {j : Nat} (hj : j < l.length) :
    l.countP (fun ar => ar.question_index = j) = 1 := by
  have h1 : (l.map (fun ar => ar.question_index)).countP (fun n => n = j)
      = l.countP (fun ar => ar.question_index = j) := by
    rw [List.countP_map]
    rfl
  have hpred : (fun n => decide (n = j)) = (fun n : Nat => n == j) := by
    funext n
    by_cases hn : n = j <;> simp [hn]
  rw [← h1, h, hpred]
  exact List.count_eq_one_of_mem (List.nodup_range _) (List.mem_range.mpr hj)

theorem wsJoin_status (s : SessionState) (u username : String) (now : ℚ) :
    (wsJoin s u username now).2.status = s.status := by
  by_cases hhost : u = s.host_id
  · simp [wsJoin, hhost]
  · by_cases hrej : s.status ≠ .waiting ∧ ¬ (alookup u s.participants).isSome = true
    · simp only [wsJoin, hhost]
      rw [if_neg (by trivial), if_pos hrej]
    · have hfst := addParticipant_fst hhost username now
      have haddst : (addParticipant s u username now).2.status = s.status := by
        rcases hp : alookup u s.participants with _ | p <;>
          simp [addParticipant, hhost, hp]
      simp only [wsJoin, hhost]
      rw [if_neg (by trivial), if_neg hrej, if_pos hfst]
      by_cases hlate : (addParticipant s u username now).2.status = .active ∧
          alookup u (addParticipant s u username now).2.questionIndexes = none ∧
          ¬ (alookup u s.participants).isSome = true
      · rw [if_pos hlate]
        simpa using haddst
      · rw [if_neg hlate]
        exact haddst

theorem restJoin_status (s : SessionState) (u username : String) (now : ℚ) :
    (restJoin s u username now).2.status = s.status := by
  by_cases hrej : s.status ≠ .waiting ∧ (alookup u s.participants).isNone = true
  · simp only [restJoin]
    rw [if_pos hrej]
  · have haddst : (addParticipant s u username now).2.status = s.status := by
      by_cases hhost : u = s.host_id
      · simp [addParticipant, hhost]
      · rcases hp : alookup u s.participants with _ | p <;>
          simp [addParticipant, hhost, hp]
    simp only [restJoin]
    rw [if_neg hrej]
    by_cases hok : (addParticipant s u username now).1 = true <;>
      simp [hok, haddst]

theorem disconnect_status (s : SessionState) (u : String) :
    (disconnectParticipant s u).status = s.status := by
  rcases hp : alookup u s.participants with _ | p <;>
    simp [disconnectParticipant, hp]

theorem submit_status (cfgT : ℚ) (s : SessionState) (u : String)
    (a : AnswerValue) (ts : ℚ) :
    (submitAnswer cfgT s u a ts).2.status = s.status := by
  rcases hsub : submitAnswer cfgT s u a ts with ⟨res, s'⟩
  rcases res with e | r
  · rw [submitAnswer_error_state hsub]
  · obtain ⟨q, g, p, _, _, _, _, _, _, hs'⟩ := submitAnswer_ok_spec hsub
    rw [hs']

theorem wsStart_status (s : SessionState) (u : String) (tl : Int) :
    (wsStartQuiz s u tl).2.status = s.status ∨
      (s.status = .waiting ∧ (wsStartQuiz s u tl).2.status = .active) := by
  by_cases hhost : u ≠ s.host_id
  · left; simp [wsStartQuiz, hhost]
  · by_cases hq : s.questions.length = 0
    · left; simp [wsStartQuiz, hhost, hq]
    · by_cases hps : s.participants.isEmpty
      · left; simp [wsStartQuiz, hhost, hq, hps]
      · by_cases hact : s.status = .active
        · left; simp [wsStartQuiz, hhost, hq, hps, hact]
        · by_cases hcomp : s.status = .completed
          · left; simp [wsStartQuiz, hhost, hq, hps, hact, hcomp]
          · right
            constructor
            · cases hs : s.status
              · rfl
              · exact absurd hs hact
              · exact absurd hs hcomp
            · simp [wsStartQuiz, hhost, hq, hps, hact, hcomp]

theorem restStart_status (s : SessionState) (u : String) :
    (restStartQuiz s u).2.status = s.status ∨
      (restStartQuiz s u).2.status = .active := by
  by_cases hhost : u ≠ s.host_id
  · left; simp [restStartQuiz, hhost]
  · right; simp [restStartQuiz, hhost]

theorem end_status (s : SessionState) (u : String) :
    (endQuiz s u).2.status = s.status ∨ (endQuiz s u).2.status = .completed := by
  by_cases hhost : u ≠ s.host_id
  · left; simp [endQuiz, hhost]
  · right; simp [endQuiz, hhost]

/-- Closed form of a successful submission (the success branch of
`_process_answer_internal` spelled out). -/
theorem submitAnswer_success_eq (cfgT ts : ℚ) (s : SessionState)
    (u : String) (a : AnswerValue) (q : Question) (g : GradeResult)
    (p : Participant)
    (hu : ¬ u = s.host_id)
    (hq : s.questions[getParticipantQuestionIndex s u]? = some q)
    (hg : gradeAnswer q a = .ok g)
    (hp : alookup u s.participants = some p)
    (hdup : (p.answers.any
      (fun ar => ar.question_index = getParticipantQuestionIndex s u)) = false) :
    submitAnswer cfgT s u a ts =
      (.ok ⟨g.is_correct,
            (computeScore q.qtype g ts (q.timeLimit.getD cfgT)).points,
            (computeScore q.qtype g ts (q.timeLimit.getD cfgT)).time_bonus,
            p.score + (computeScore q.qtype g ts (q.timeLimit.getD cfgT)).points,
            q.qtype, getParticipantQuestionIndex s u⟩,
       { s with participants := aset u (recordAnswer p (getParticipantQuestionIndex s u) a ts g (computeScore q.qtype g ts (q.timeLimit.getD cfgT)).points) s.participants, questionIndexes := aset u (getParticipantQuestionIndex s u + 1) s.questionIndexes }) := by
  simp [submitAnswer, hu, hq, hg, hp, hdup, recordAnswer]

/-- For a grade without a credit fraction and a correct answer, the score is
base 1000 plus the speed bonus computed from the time limit passed in. -/
theorem computeScore_correct_full (qt : String) (ts T : ℚ) (hts : 0 ≤ ts) :
    computeScore qt ⟨true, none⟩ ts T =
      ⟨1000 + pyInt (1000 * (max 1 (2 - min ts T / T) - 1)),
        pyInt (1000 * (max 1 (2 - min ts T / T) - 1)),
        max 1 (2 - min ts T / T)⟩ := by
  simp [computeScore, hts]

/-- The speed multiplier at an instant answer is the full 2x. -/
theorem multiplier_at_zero {T : ℚ} (hT : 0 < T) :
    max 1 (2 - min 0 T / T) = 2 := by
  rw [min_eq_left hT.le, zero_div, sub_zero]
  norm_num [max_def]

/-- The speed multiplier at or past the time limit is 1x. -/
theorem multiplier_at_limit {T ts : ℚ} (hT : 0 < T) (hts : T ≤ ts) :
    max 1 (2 - min ts T / T) = 1 := by
  rw [min_eq_right hts, div_self (ne_of_gt hT)]
  norm_num

/-! Concrete sessions used to instantiate and refute claims. -/

/-- A one-question singleMcq quiz whose question carries an embedded
10-second `timeLimit`, in a session whose host chose 30 seconds. -/
def demoQuestion : Question := ⟨"singleMcq", some 0, [], [], some 10⟩

/-- Fresh demo session for the quiz above, host `"h"`. -/
def demoInit : SessionState := initialState [demoQuestion] "h" 30

/-- Demo session after participant `"p"` joined. -/
def demoJoined : SessionState := stepState 30 demoInit (.wsJoinOp "p" "P" 0)

/-- Demo session after the host started the quiz. -/
def demoStarted : SessionState := stepState 30 demoJoined (.wsStartOp "h" 30)

/-- Demo session after the host ended the quiz early: `status = completed`
while participant `"p"` has answered nothing and its index is 0. -/
def demoEnded : SessionState := stepState 30 demoStarted (.endOp "h")

/-! Claim theorems. -/

/-- C6: a submission for a question index that already has an entry in the
submitting participant's answers list returns the "Already answered" error
and leaves the whole session state — in particular that participant's
answers and score — exactly as it was. -/
theorem c6_already_answered_rejected (cfgT : ℚ) (s : SessionState)
    (u : String) (a : AnswerValue) (ts : ℚ) (p : Participant) (q : Question)
    (g : GradeResult)
    (hu : ¬ u = s.host_id)
    (hp : alookup u s.participants = some p)
    (hq : s.questions[getParticipantQuestionIndex s u]? = some q)
    (hg : gradeAnswer q a = .ok g)
    (hdup : (p.answers.any
      (fun ar => ar.question_index = getParticipantQuestionIndex s u)) = true) :
    submitAnswer cfgT s u a ts = (.error "Already answered", s) := by
  simp [submitAnswer, hu, hq, hg, hp, hdup]

/-- An active demo session in which participant `"p"` has an answer recorded
for question 0 while the stored per-player index still points at 0 (the
state the duplicate-submission guard protects against). -/
def staleIndexState : SessionState :=
  ⟨"h", .active, 30, [demoQuestion],
    [("p", ⟨"p", "P", 0, true, 2000, [⟨0, .intAns 0, 0, true, 2000⟩]⟩)],
    [("p", 0)]⟩

/-- Witness for C6: re-submitting question 0 in `staleIndexState` returns
"Already answered" and leaves the state unchanged. -/
theorem c6_already_answered_rejected_witness :
    submitAnswer 30 staleIndexState "p" (.intAns 1) 2 =
      (.error "Already answered", staleIndexState) :=
  c6_already_answered_rejected 30 staleIndexState "p" (.intAns 1) 2
    ⟨"p", "P", 0, true, 2000, [⟨0, .intAns 0, 0, true, 2000⟩]⟩ demoQuestion
    ⟨false, none⟩ (by decide) (by decide) (by decide) rfl (by decide)

/-- C9: marking a rostered participant disconnected and then re-joining with
the same `user_id` yields a record with the same score and the same answers,
with `connected` back to `true` (and the join succeeds). -/
theorem c9_disconnect_rejoin_preserves (s : SessionState)
    (u username2 : String) (now : ℚ) (p : Participant)
    (hp : alookup u s.participants = some p) (hu : ¬ u = s.host_id) :
    ∃ p', alookup u (wsJoin (disconnectParticipant s u) u username2 now).2.participants = some p' ∧
      p'.score = p.score ∧ p'.answers = p.answers ∧ p'.connected = true ∧
      (wsJoin (disconnectParticipant s u) u username2 now).1 = .ok () := by
  have hs1p : alookup u (disconnectParticipant s u).participants =
      some { p with connected := false } := by
    simp [disconnectParticipant, hp, alookup_aset_self]
  have hs1host : ¬ u = (disconnectParticipant s u).host_id := by
    simpa [disconnectParticipant, hp] using hu
  have hjoin := wsJoin_reconnect hs1p hs1host username2 now
  refine ⟨{ p with connected := true, username := username2 }, ?_, rfl, rfl, rfl, ?_⟩
  · rw [hjoin]
    simp [alookup_aset_self]
  · rw [hjoin]

/-- Witness for C9: disconnecting the demo participant and re-joining keeps
the score-0 empty-answers record and restores `connected = true`. -/
theorem c9_disconnect_rejoin_preserves_witness :
    ∃ p', alookup "p" (wsJoin (disconnectParticipant demoJoined "p") "p" "P2" 7).2.participants = some p' ∧
      p'.score = (0 : Int) ∧ p'.answers = ([] : List AnswerRecord) ∧
      p'.connected = true ∧
      (wsJoin (disconnectParticipant demoJoined "p") "p" "P2" 7).1 = .ok () :=
  c9_disconnect_rejoin_preserves demoJoined "p" "P2" 7
    ⟨"p", "P", 0, true, 0, []⟩ (by decide) (by decide)

/-- C10: when no per-player question index was ever stored for a (session,
user) pair, `get_participant_question_index` returns 0 instead of failing. -/
theorem c10_missing_index_defaults_zero (s : SessionState) (u : String)
    (h : alookup u s.questionIndexes = none) :
    getParticipantQuestionIndex s u = 0 := by
  simp [getParticipantQuestionIndex, h]

/-- Witness for C10: a never-initialized user in the fresh demo session is
assigned question 0. -/
theorem c10_missing_index_defaults_zero_witness :
    getParticipantQuestionIndex demoInit "q" = 0 :=
  c10_missing_index_defaults_zero demoInit "q" (by decide)

/-- The roster record of `"p"` in the started demo session. -/
def demoParticipant : Participant := ⟨"p", "P", 0, true, 0, []⟩

/-- C7: a correct `singleMcq` submission is graded correct and awarded
exactly 2000 points when `client_timestamp = 0` (base 1000 plus full
speed bonus 1000), and exactly 1000 points when `client_timestamp` is at
or past the scoring time limit `T` (the question's effective limit,
`timeLimit` defaulting to `QUESTION_TIME_SECONDS`). -/
theorem c7_single_correct_endpoint_points (cfgT ts : ℚ) (s : SessionState)
    (u : String) (c : Int) (q : Question) (p : Participant)
    (hu : ¬ u = s.host_id)
    (hq : s.questions[getParticipantQuestionIndex s u]? = some q)
    (hqt : q.qtype = "singleMcq")
    (hc : q.correctAnswerIndex = some c)
    (hp : alookup u s.participants = some p)
    (hdup : (p.answers.any
      (fun ar => ar.question_index = getParticipantQuestionIndex s u)) = false)
    (hT : 0 < q.timeLimit.getD cfgT) :
    (ts = 0 →
      (submitAnswer cfgT s u (.intAns c) ts).1.map (fun r => r.points) = .ok 2000) ∧
    (q.timeLimit.getD cfgT ≤ ts →
      (submitAnswer cfgT s u (.intAns c) ts).1.map (fun r => r.points) = .ok 1000) := by
  have hgr : gradeAnswer q (.intAns c) = .ok ⟨true, none⟩ := by
    simp [gradeAnswer, hqt, hc, intOfAnswer]
  rw [submitAnswer_success_eq cfgT ts s u (.intAns c) q ⟨true, none⟩ p hu hq hgr hp hdup]
  constructor
  · rintro rfl
    rw [computeScore_correct_full _ _ _ le_rfl, multiplier_at_zero hT]
    norm_num [Except.map, pyInt]
  · intro hts
    rw [computeScore_correct_full _ _ _ (le_trans hT.le hts),
      multiplier_at_limit hT hts]
    norm_num [Except.map, pyInt]

/-- Witness for C7: in the started demo session (question time limit 10),
an instant correct answer earns 2000 and an answer at the limit earns
1000. -/
theorem c7_single_correct_endpoint_points_witness :
    (((0 : ℚ) = 0 →
      (submitAnswer 30 demoStarted "p" (.intAns 0) 0).1.map (fun r => r.points) = .ok 2000) ∧
     (demoQuestion.timeLimit.getD 30 ≤ (0 : ℚ) →
      (submitAnswer 30 demoStarted "p" (.intAns 0) 0).1.map (fun r => r.points) = .ok 1000)) ∧
    (((10 : ℚ) = 0 →
      (submitAnswer 30 demoStarted "p" (.intAns 0) 10).1.map (fun r => r.points) = .ok 2000) ∧
     (demoQuestion.timeLimit.getD 30 ≤ (10 : ℚ) →
      (submitAnswer 30 demoStarted "p" (.intAns 0) 10).1.map (fun r => r.points) = .ok 1000)) :=
  ⟨c7_single_correct_endpoint_points 30 0 demoStarted "p" 0 demoQuestion demoParticipant
      (by decide) (by decide) rfl rfl (by decide) (by decide) (by norm_num [demoQuestion]),
   c7_single_correct_endpoint_points 30 10 demoStarted "p" 0 demoQuestion demoParticipant
      (by decide) (by decide) rfl rfl (by decide) (by decide) (by norm_num [demoQuestion])⟩

/-- The response of the demo participant answering question 0 correctly at
`client_timestamp = 10` (the question's embedded limit). -/
def c2r : SubmitResponse := ⟨true, 1000, 0, 1000, "singleMcq", 0⟩

/-- The state after that submission. -/
def c2sAfter : SessionState :=
  { demoStarted with
    participants := aset "p" (recordAnswer demoParticipant 0 (.intAns 0) 10 ⟨true, none⟩ 1000) demoStarted.participants,
    questionIndexes := aset "p" 1 demoStarted.questionIndexes }

/-- Evaluation of the submission in the started demo session at
`client_timestamp = 10`: the question's embedded 10-second limit yields
multiplier 1 and exactly 1000 points. -/
theorem demo_submit_at_ten :
    submitAnswer 30 demoStarted "p" (.intAns 0) 10 = (.ok c2r, c2sAfter) := by
  rw [submitAnswer_success_eq 30 10 demoStarted "p" (.intAns 0) demoQuestion
    ⟨true, none⟩ demoParticipant (by decide) (by decide) rfl (by decide) (by decide)]
  have hcs : computeScore demoQuestion.qtype ⟨true, none⟩ 10 (demoQuestion.timeLimit.getD 30) = ⟨1000, 0, 1⟩ := by
    rw [show demoQuestion.timeLimit.getD 30 = (10 : ℚ) from rfl,
      show demoQuestion.qtype = "singleMcq" from rfl,
      computeScore_correct_full _ _ _ (by norm_num),
      multiplier_at_limit (by norm_num) (le_refl _)]
    norm_num [pyInt]
  rw [hcs]
  rfl

/-- Counterexample to C2 as stated: the started demo session has
`per_question_time_limit = 30` but the question embeds `timeLimit = 10`;
a correct answer at `client_timestamp = 10` is awarded 1000 points by the
code, while the claim's formula with `T = 30` (the session value) yields
1666.  The scoring therefore does not use the session's limit. -/
theorem c2_counterexample :
    demoStarted.per_question_time_limit = 30 ∧
    submitAnswer 30 demoStarted "p" (.intAns 0) 10 = (.ok c2r, c2sAfter) ∧
    specSessionPoints 10 30 = 1666 ∧
    c2r.points ≠ specSessionPoints 10 30 := by
  refine ⟨by decide, demo_submit_at_ten, ?_, ?_⟩
  · norm_num [specSessionPoints, specSessionMultiplier, pyInt, min_def, max_def]
  · norm_num [specSessionPoints, specSessionMultiplier, pyInt, min_def, max_def, c2r]

/-- C2 amended: the speed bonus of a correct non-multiMcq submission is
computed from the question's own `timeLimit` (defaulting to
`QUESTION_TIME_SECONDS`), not from the session's
`per_question_time_limit`: `bonus = int(1000*(max(1, 2 - min(ts,Tq)/Tq) - 1))`
with `Tq` the question's effective limit, and `points = 1000 + bonus`. -/
theorem c2_bonus_uses_question_limit (cfgT ts : ℚ) (s : SessionState)
    (u : String) (a : AnswerValue) (q : Question) (r : SubmitResponse)
    (s' : SessionState)
    (hq : s.questions[getParticipantQuestionIndex s u]? = some q)
    (hnm : q.qtype ≠ "multiMcq")
    (hts : 0 ≤ ts)
    (hsub : submitAnswer cfgT s u a ts = (.ok r, s'))
    (hcorr : r.is_correct = true) :
    r.time_bonus =
      pyInt (1000 * (max 1 (2 - min ts (q.timeLimit.getD cfgT) / q.timeLimit.getD cfgT) - 1)) ∧
    r.points = 1000 + r.time_bonus := by
  obtain ⟨q', g, p, hhost, hq', hg, hp, hdup, hr, hs'⟩ := submitAnswer_ok_spec hsub
  rw [hq] at hq'
  obtain rfl : q = q' := Option.some.inj hq'
  subst hr
  have hgc : g.is_correct = true := hcorr
  constructor <;> simp [computeScore, hnm, hgc, hts]

/-- Witness for C2 amended: the `ts = 10` demo submission has bonus 0 and
points `1000 + 0`, per the question's 10-second limit. -/
theorem c2_bonus_uses_question_limit_witness :
    c2r.time_bonus =
      pyInt (1000 * (max 1 (2 - min 10 (demoQuestion.timeLimit.getD 30) / demoQuestion.timeLimit.getD 30) - 1)) ∧
    c2r.points = 1000 + c2r.time_bonus :=
  c2_bonus_uses_question_limit 30 10 demoStarted "p" (.intAns 0) demoQuestion
    c2r c2sAfter (by decide) (by decide) (by norm_num) demo_submit_at_ten rfl

/-- The partial-credit fraction of a multiMcq submission with correct set
`C = cs` and submitted set `U = us`:
`max(0, min(1, (|C∩U| − |U\C|)/|C|))`, exactly as the claim and (for a
non-empty correct set) the code compute it. -/
def specPartCredit (cs us : List Int) : ℚ :=
  max 0 (min 1
    ((((cs.toFinset ∩ us.toFinset).card : ℚ) - ((us.toFinset \ cs.toFinset).card : ℚ)) /
      (cs.toFinset.card : ℚ)))

/-- Grading of a multiMcq list answer with a non-empty correct set. -/
theorem gradeAnswer_multi (q : Question) (us : List Int)
    (hqt : q.qtype = "multiMcq") (hC : q.correctAnswerIndices ≠ []) :
    gradeAnswer q (.listAns us) =
      .ok ⟨decide (us.toFinset = q.correctAnswerIndices.toFinset),
           some (specPartCredit q.correctAnswerIndices us)⟩ := by
  obtain ⟨x, hx⟩ := List.exists_mem_of_ne_nil _ hC
  have hcard : 0 < q.correctAnswerIndices.toFinset.card :=
    Finset.card_pos.mpr ⟨x, List.mem_toFinset.mpr hx⟩
  simp [gradeAnswer, hqt, hC, userAnswerList, hcard, specPartCredit,
    Finset.inter_comm]

/-- C5: for a multiMcq submission `U` on a question with non-empty correct
set `C`, the awarded response has `is_correct` exactly when `U = C` as sets,
`points = int(1000·partial) + time_bonus` for
`partial = max(0, min(1, (|C∩U| − |U\C|)/|C|))`, and the time bonus is
computed on the partial base exactly when `partial > 0` (else zero). -/
theorem c5_multiMcq_partial_scoring (cfgT ts : ℚ) (s : SessionState)
    (u : String) (us : List Int) (q : Question) (r : SubmitResponse)
    (s' : SessionState)
    (hq : s.questions[getParticipantQuestionIndex s u]? = some q)
    (hqt : q.qtype = "multiMcq")
    (hC : q.correctAnswerIndices ≠ [])
    (hts : 0 ≤ ts)
    (hsub : submitAnswer cfgT s u (.listAns us) ts = (.ok r, s')) :
    (r.is_correct = true ↔ us.toFinset = q.correctAnswerIndices.toFinset) ∧
    r.points = pyInt (1000 * specPartCredit q.correctAnswerIndices us) + r.time_bonus ∧
    (0 < specPartCredit q.correctAnswerIndices us →
      r.time_bonus = pyInt ((pyInt (1000 * specPartCredit q.correctAnswerIndices us) : ℚ) *
        (max 1 (2 - min ts (q.timeLimit.getD cfgT) / q.timeLimit.getD cfgT) - 1))) ∧
    (specPartCredit q.correctAnswerIndices us = 0 → r.time_bonus = 0) := by
  obtain ⟨q', g, p, hhost, hq', hg, hp, hdup, hr, hs'⟩ := submitAnswer_ok_spec hsub
  rw [hq] at hq'
  obtain rfl : q = q' := Option.some.inj hq'
  rw [gradeAnswer_multi q us hqt hC] at hg
  obtain rfl := Except.ok.inj hg
  subst hr
  by_cases hpc : 0 < specPartCredit q.correctAnswerIndices us
  · refine ⟨by simp, ?_, fun _ => ?_, fun h0 => absurd h0 (ne_of_gt hpc)⟩ <;>
      simp [computeScore, hqt, hpc, hts]
  · have h0 : specPartCredit q.correctAnswerIndices us = 0 :=
      le_antisymm (not_lt.mp hpc) (le_max_left 0 _)
    refine ⟨by simp, ?_, fun hlt => absurd hlt hpc, fun _ => ?_⟩ <;>
      simp [computeScore, hqt, hpc]

/-- A two-option multiMcq question with correct set `{0, 1}` and a
10-second embedded limit. -/
def multiQuestion : Question := ⟨"multiMcq", none, [0, 1], [], some 10⟩

/-- A started session on the multiMcq demo quiz with participant `"p"`. -/
def multiStarted : SessionState :=
  stepState 30 (stepState 30 (initialState [multiQuestion] "h" 30)
    (.wsJoinOp "p" "P" 0)) (.wsStartOp "h" 30)

/-- The fully-correct submission `{0, 1}` has credit fraction 1. -/
theorem specPartCredit_full : specPartCredit [0, 1] [0, 1] = 1 := by
  have h1 : ((([0, 1] : List Int).toFinset ∩ ([0, 1] : List Int).toFinset).card) = 2 := by
    decide
  have h2 : ((([0, 1] : List Int).toFinset \ ([0, 1] : List Int).toFinset).card) = 0 := by
    decide
  have h3 : (([0, 1] : List Int).toFinset).card = 2 := by decide
  rw [specPartCredit, h1, h2, h3]
  norm_num

/-- Grading the fully-correct multiMcq submission. -/
theorem grade_multi_full :
    gradeAnswer multiQuestion (.listAns [0, 1]) = .ok ⟨true, some 1⟩ := by
  rw [gradeAnswer_multi multiQuestion [0, 1] rfl (by decide)]
  simp only [show multiQuestion.correctAnswerIndices = [0, 1] from rfl]
  rw [specPartCredit_full]
  norm_num

/-- Scoring the fully-correct multiMcq submission at `ts = 20 ≥ 10`. -/
theorem score_multi_full_at_twenty :
    computeScore "multiMcq" ⟨true, some 1⟩ 20 10 = ⟨1000, 0, 1⟩ := by
  rw [computeScore]
  norm_num [pyInt, min_def, max_def]

/-- State after the fully-correct multiMcq submission. -/
def multiAfter : SessionState :=
  { multiStarted with
    participants := aset "p" (recordAnswer demoParticipant 0 (.listAns [0, 1]) 20 ⟨true, some 1⟩ 1000) multiStarted.participants,
    questionIndexes := aset "p" 1 multiStarted.questionIndexes }

/-- Evaluation of the fully-correct multiMcq submission at `ts = 20`. -/
theorem multi_submit_full :
    submitAnswer 30 multiStarted "p" (.listAns [0, 1]) 20 =
      (.ok ⟨true, 1000, 0, 1000, "multiMcq", 0⟩, multiAfter) := by
  rw [submitAnswer_success_eq 30 20 multiStarted "p" (.listAns [0, 1])
    multiQuestion ⟨true, some 1⟩ demoParticipant (by decide) (by decide)
    grade_multi_full (by decide) (by decide)]
  rw [show multiQuestion.timeLimit.getD 30 = (10 : ℚ) from rfl,
    show multiQuestion.qtype = "multiMcq" from rfl, score_multi_full_at_twenty]
  rfl

/-- Witness for C5: the fully-correct submission `{0,1}` against correct
set `{0,1}` at `ts = 20` is marked correct with `points = int(1000·1) + 0`. -/
theorem c5_multiMcq_partial_scoring_witness :
    (((⟨true, 1000, 0, 1000, "multiMcq", 0⟩ : SubmitResponse).is_correct = true ↔
        ([0, 1] : List Int).toFinset = multiQuestion.correctAnswerIndices.toFinset) ∧
     (⟨true, 1000, 0, 1000, "multiMcq", 0⟩ : SubmitResponse).points =
        pyInt (1000 * specPartCredit multiQuestion.correctAnswerIndices [0, 1]) +
          (⟨true, 1000, 0, 1000, "multiMcq", 0⟩ : SubmitResponse).time_bonus ∧
     (0 < specPartCredit multiQuestion.correctAnswerIndices [0, 1] →
      (⟨true, 1000, 0, 1000, "multiMcq", 0⟩ : SubmitResponse).time_bonus =
        pyInt ((pyInt (1000 * specPartCredit multiQuestion.correctAnswerIndices [0, 1]) : ℚ) *
          (max 1 (2 - min 20 (multiQuestion.timeLimit.getD 30) / multiQuestion.timeLimit.getD 30) - 1))) ∧
     (specPartCredit multiQuestion.correctAnswerIndices [0, 1] = 0 →
      (⟨true, 1000, 0, 1000, "multiMcq", 0⟩ : SubmitResponse).time_bonus = 0)) :=
  c5_multiMcq_partial_scoring 30 20 multiStarted "p" [0, 1] multiQuestion
    ⟨true, 1000, 0, 1000, "multiMcq", 0⟩ multiAfter (by decide) rfl
    (by decide) (by norm_num) multi_submit_full

/-- A session with a score tie where the roster order disagrees with the
claim's tiebreak: `"p2"` (joined first, 1 answer) and `"p1"` (joined
second, 2 answers) both have 1000 points. -/
def tieState : SessionState :=
  ⟨"h", .active, 30, [multiQuestion, multiQuestion],
    [("p2", ⟨"p2", "P2", 0, true, 1000, [⟨0, .listAns [0, 1], 20, true, 1000⟩]⟩),
     ("p1", ⟨"p1", "P1", 1, true, 1000,
        [⟨0, .listAns [0], 20, false, 500⟩, ⟨1, .listAns [1], 20, false, 500⟩]⟩)],
    [("p2", 1), ("p1", 2)]⟩

/-- Counterexample to C8 as stated: in `tieState` the code's leaderboard
keeps the tied players in roster order (`"p2"` with 1 answer before `"p1"`
with 2), so it is not sorted by the claimed
(score desc, answered_count desc, joined_at asc) order. -/
theorem c8_counterexample :
    ¬ (requestLeaderboard tieState).Pairwise specLeaderboardLE := by
  intro h
  have heq : requestLeaderboard tieState =
      [⟨"p2", "P2", 1000, 1, 1, 2, true, 0⟩, ⟨"p1", "P1", 1000, 2, 2, 2, true, 1⟩] := by
    decide
  rw [heq] at h
  have := (List.pairwise_cons.mp h).1 _ (List.mem_singleton.mpr rfl)
  revert this
  decide

/-- Inserting an entry moves it past strictly greater scores only, so the
subsequence of any fixed score `v` gains `x` at its front exactly when
`x.score = v`. -/
theorem filter_insertDesc (x : LBEntry) (m : List LBEntry) (v : Int) :
    (insertDesc x m).filter (fun e => e.score = v) =
      if x.score = v then x :: m.filter (fun e => e.score = v)
      else m.filter (fun e => e.score = v) := by
  induction m with
  | nil =>
    by_cases hx : x.score = v <;> simp [insertDesc, hx]
  | cons y ys ih =>
    by_cases hy : y.score ≤ x.score
    · rw [show insertDesc x (y :: ys) = x :: y :: ys from by simp [insertDesc, hy]]
      by_cases hx : x.score = v <;> by_cases hyv : y.score = v <;>
        simp [List.filter_cons, hx, hyv]
    · have hlt : x.score < y.score := lt_of_not_le hy
      rw [show insertDesc x (y :: ys) = y :: insertDesc x ys from by
        simp [insertDesc, hy]]
      by_cases hx : x.score = v
      · have hyv : ¬ y.score = v := by
          rw [← hx]
          exact ne_of_gt hlt
        simp [List.filter_cons, hx, hyv, ih]
      · by_cases hyv : y.score = v <;>
          simp [List.filter_cons, hx, hyv, ih]

/-- Stability of the leaderboard sort: for every score value, the entries
carrying that score appear in the sorted output in exactly their original
(roster) order. -/
theorem filter_sortScoreDesc (l : List LBEntry) (v : Int) :
    (sortScoreDesc l).filter (fun e => e.score = v) =
      l.filter (fun e => e.score = v) := by
  induction l with
  | nil => rfl
  | cons x xs ih =>
    show (insertDesc x (sortScoreDesc xs)).filter _ = _
    rw [filter_insertDesc]
    by_cases hx : x.score = v <;> simp [List.filter_cons, hx, ih]

/-- Two score-descending lists with identical per-score subsequences are
equal: sortedness plus stability determines the list. -/
theorem filter_score_cons_eq (c : LBEntry) (t : List LBEntry) (v : Int)
    (hcv : c.score = v) :
    (c :: t).filter (fun e => e.score = v) =
      c :: t.filter (fun e => e.score = v) := by
  simp [List.filter_cons, hcv]

theorem filter_score_cons_ne (c : LBEntry) (t : List LBEntry) (v : Int)
    (hcv : ¬ c.score = v) :
    (c :: t).filter (fun e => e.score = v) =
      t.filter (fun e => e.score = v) := by
  simp [List.filter_cons, hcv]

theorem score_mem_of_filter_ne_nil {l : List LBEntry} {v : Int}
    (h : l.filter (fun e => e.score = v) ≠ []) :
    ∃ e ∈ l, e.score = v := by
  by_contra hno
  push_neg at hno
  exact h (List.filter_eq_nil_iff.mpr (by simpa using hno))

theorem sorted_filter_eq_unique : ∀ {l₁ l₂ : List LBEntry},
    l₁.Pairwise (fun a b => b.score ≤ a.score) →
    l₂.Pairwise (fun a b => b.score ≤ a.score) →
    (∀ v : Int, l₁.filter (fun e => e.score = v) =
      l₂.filter (fun e => e.score = v)) →
    l₁ = l₂ := by
  intro l₁
  induction l₁ with
  | nil =>
    intro l₂ _ _ hf
    cases l₂ with
    | nil => rfl
    | cons b t₂ =>
      have hfb := hf b.score
      rw [filter_score_cons_eq b t₂ b.score rfl] at hfb
      simp at hfb
  | cons a t₁ ih =>
    intro l₂ h₁ h₂ hf
    cases l₂ with
    | nil =>
      have hfa := hf a.score
      rw [filter_score_cons_eq a t₁ a.score rfl] at hfa
      simp at hfa
    | cons b t₂ =>
      have hab : a.score = b.score := by
        have hle1 : a.score ≤ b.score := by
          have hfa := hf a.score
          rw [filter_score_cons_eq a t₁ a.score rfl] at hfa
          obtain ⟨e, he, hev⟩ := score_mem_of_filter_ne_nil
            (l := b :: t₂) (v := a.score)
            (by rw [← hfa]; exact List.cons_ne_nil _ _)
          rcases List.mem_cons.mp he with rfl | he
          · exact le_of_eq hev.symm
          · exact hev ▸ (List.pairwise_cons.mp h₂).1 e he
        have hle2 : b.score ≤ a.score := by
          have hfb := hf b.score
          rw [filter_score_cons_eq b t₂ b.score rfl] at hfb
          obtain ⟨e, he, hev⟩ := score_mem_of_filter_ne_nil
            (l := a :: t₁) (v := b.score)
            (by rw [hfb]; exact List.cons_ne_nil _ _)
          rcases List.mem_cons.mp he with rfl | he
          · exact le_of_eq hev.symm
          · exact hev ▸ (List.pairwise_cons.mp h₁).1 e he
        exact le_antisymm hle1 hle2
      have hfa := hf a.score
      rw [filter_score_cons_eq a t₁ a.score rfl,
        filter_score_cons_eq b t₂ a.score hab.symm] at hfa
      obtain ⟨rfl, htail⟩ := List.cons.inj hfa
      have hft : ∀ v : Int, t₁.filter (fun e => e.score = v) =
          t₂.filter (fun e => e.score = v) := by
        intro v
        by_cases hv : a.score = v
        · rw [← hv]
          exact htail
        · have hfv := hf v
          rw [filter_score_cons_ne a t₁ v hv,
            filter_score_cons_ne a t₂ v hv] at hfv
          exact hfv
      rw [ih (List.pairwise_cons.mp h₁).2 (List.pairwise_cons.mp h₂).2 hft]

/-- C8 amended: the live leaderboard is exactly the stable sort of the
roster's entries by `score` descending: it is score-sorted, for every score
value the tied entries appear in their roster (dict-insertion, i.e. join)
order, it is a permutation of the roster entries, and it is the unique such
list — so no `answered_count` or `joined_at` tiebreak is applied. -/
theorem c8_stable_sort_by_score_only (s : SessionState) :
    (requestLeaderboard s).Pairwise (fun a b => b.score ≤ a.score) ∧
    (∀ v : Int, (requestLeaderboard s).filter (fun e => e.score = v) =
      (leaderboardEntries s).filter (fun e => e.score = v)) ∧
    List.Perm (requestLeaderboard s) (leaderboardEntries s) ∧
    (∀ l : List LBEntry, l.Pairwise (fun a b => b.score ≤ a.score) →
      (∀ v : Int, l.filter (fun e => e.score = v) =
        (leaderboardEntries s).filter (fun e => e.score = v)) →
      l = requestLeaderboard s) :=
  ⟨sortScoreDesc_sorted (leaderboardEntries s),
   fun v => filter_sortScoreDesc (leaderboardEntries s) v,
   sortScoreDesc_perm (leaderboardEntries s),
   fun l hs hfl =>
     sorted_filter_eq_unique hs (sortScoreDesc_sorted (leaderboardEntries s))
       (fun v => by
         rw [hfl v]
         exact (filter_sortScoreDesc (leaderboardEntries s) v).symm)⟩

/-- C4: in any reachable session, immediately after a successful answer
submission the submitting participant's stored question index equals the
length of their answers list, and the answers list holds exactly one entry
for every question index below it (in order). -/
theorem c4_index_equals_answer_count (cfgT : ℚ) (s : SessionState)
    (hreach : Reachable cfgT s) (u : String) (a : AnswerValue) (ts : ℚ)
    (hok : (submitAnswer cfgT s u a ts).1.isOk = true) :
    ∃ p', alookup u (submitAnswer cfgT s u a ts).2.participants = some p' ∧
      getParticipantQuestionIndex (submitAnswer cfgT s u a ts).2 u = p'.answers.length ∧
      p'.answers.map (fun ar => ar.question_index) = List.range p'.answers.length ∧
      (∀ j, j < p'.answers.length →
        p'.answers.countP (fun ar => ar.question_index = j) = 1) := by
  have hinv := reachable_inv hreach
  rcases hsub : submitAnswer cfgT s u a ts with ⟨res, s'⟩
  rcases res with e | r
  · rw [hsub] at hok
    simp [Except.isOk, Except.toBool] at hok
  · obtain ⟨q, g, p, hhost, hq, hg, hp, hdup, hr, hs'⟩ := submitAnswer_ok_spec hsub
    have hieq := submit_index_eq_length hinv hp hdup
    have hmap := (hinv.1 u p hp).1
    subst hs'
    refine ⟨recordAnswer p (getParticipantQuestionIndex s u) a ts g
      (computeScore q.qtype g ts (q.timeLimit.getD cfgT)).points, ?_, ?_, ?_, ?_⟩
    · simp [alookup_aset_self]
    · simp [recordAnswer, getParticipantQuestionIndex, alookup_aset_self]
      exact hieq
    · simp only [recordAnswer, List.map_append, List.length_append, hmap,
        List.map_cons, List.map_nil, List.length_cons, List.length_nil]
      rw [hieq]
      exact (List.range_succ (n := p.answers.length)).symm
    · intro j hj
      refine countP_eq_one_of_map_range ?_ hj
      simp only [recordAnswer, List.map_append, List.length_append, hmap,
        List.map_cons, List.map_nil, List.length_cons, List.length_nil]
      rw [hieq]
      exact (List.range_succ (n := p.answers.length)).symm

/-- Witness for C4: the started demo session is reachable, the demo
submission succeeds, and the resulting record satisfies the index/answers
invariant. -/
theorem c4_index_equals_answer_count_witness :
    ∃ p', alookup "p" (submitAnswer 30 demoStarted "p" (.intAns 0) 0).2.participants = some p' ∧
      getParticipantQuestionIndex (submitAnswer 30 demoStarted "p" (.intAns 0) 0).2 "p" = p'.answers.length ∧
      p'.answers.map (fun ar => ar.question_index) = List.range p'.answers.length ∧
      (∀ j, j < p'.answers.length →
        p'.answers.countP (fun ar => ar.question_index = j) = 1) := by
  have h0 : Reachable 30 demoInit := Reachable.init [demoQuestion] "h" 30
  have h1 : Reachable 30 demoJoined := Reachable.next demoInit (.wsJoinOp "p" "P" 0) h0
  have h2 : Reachable 30 demoStarted := Reachable.next demoJoined (.wsStartOp "h" 30) h1
  have hok : (submitAnswer 30 demoStarted "p" (.intAns 0) 0).1.isOk = true := by
    rw [submitAnswer_success_eq 30 0 demoStarted "p" (.intAns 0) demoQuestion
      ⟨true, none⟩ demoParticipant (by decide) (by decide) rfl (by decide) (by decide)]
    rfl
  exact c4_index_equals_answer_count 30 demoStarted h2 "p" (.intAns 0) 0 hok

/-- Counterexample to C1 as stated: `demoEnded` (reached by join, start,
then host end) has `status = completed`, yet the participant whose index is
still below the question count submits successfully and the participants
map (answers, score) changes. -/
theorem c1_counterexample :
    demoEnded.status = .completed ∧
    (submitAnswer 30 demoEnded "p" (.intAns 0) 0).1.isOk = true ∧
    (submitAnswer 30 demoEnded "p" (.intAns 0) 0).2.participants ≠ demoEnded.participants := by
  have hsub := submitAnswer_success_eq 30 0 demoEnded "p" (.intAns 0) demoQuestion
    ⟨true, none⟩ demoParticipant (by decide) (by decide) rfl (by decide) (by decide)
  refine ⟨by decide, ?_, ?_⟩
  · rw [hsub]
    rfl
  · rw [hsub]
    intro h
    have h2 := congrArg (alookup "p") h
    simp only [alookup_aset_self] at h2
    have h3 : alookup "p" demoEnded.participants = some demoParticipant := by decide
    rw [h3] at h2
    have h4 := congrArg Participant.answers (Option.some.inj h2)
    simp [recordAnswer, demoParticipant] at h4

/-- C1 amended: once `status = completed`, joins by users not already on the
roster fail (both the websocket and REST paths) without touching the state,
and submissions by players whose per-player index has reached the question
count fail without touching the state.  Submissions by players whose index
is still below the question count are however not status-gated (see the
counterexample), and disconnect/reconnect still flip `connected`. -/
theorem c1_completed_blocks_new_joins_and_finished_submits (cfgT : ℚ)
    (s : SessionState) (u username : String) (now ts : ℚ) (a : AnswerValue)
    (hc : s.status = .completed) (hu : ¬ u = s.host_id) :
    (alookup u s.participants = none →
      wsJoin s u username now = (.error "Session is already active", s) ∧
      restJoin s u username now = (.error "Quiz has already started", s)) ∧
    (s.questions.length ≤ getParticipantQuestionIndex s u →
      submitAnswer cfgT s u a ts = (.error "Invalid question index", s)) := by
  constructor
  · intro hp
    constructor
    · simp only [wsJoin, hu]
      rw [if_neg (by trivial), if_pos (by simp [hp, hc])]
    · simp only [restJoin]
      rw [if_pos (by simp [hp, hc])]
  · intro hlen
    have hnone : s.questions[getParticipantQuestionIndex s u]? = none :=
      List.getElem?_eq_none hlen
    simp [submitAnswer, hu, hnone]

/-- Witness for C1 amended: in the completed demo session, the unknown user
`"q"` cannot join by either path, and a submission at an exhausted index
fails. -/
theorem c1_completed_blocks_witness :
    (alookup "q" demoEnded.participants = none →
      wsJoin demoEnded "q" "Q" 5 = (.error "Session is already active", demoEnded) ∧
      restJoin demoEnded "q" "Q" 5 = (.error "Quiz has already started", demoEnded)) ∧
    (demoEnded.questions.length ≤ getParticipantQuestionIndex demoEnded "q" →
      submitAnswer 30 demoEnded "q" .nullAns 0 = (.error "Invalid question index", demoEnded)) :=
  c1_completed_blocks_new_joins_and_finished_submits 30 demoEnded "q" "Q" 5 0
    .nullAns (by decide) (by decide)

/-- Counterexample to C3 as stated: the completed demo session moves back to
`active` when the host calls the REST start endpoint, so `completed` is not
terminal under the full operation set. -/
theorem c3_counterexample :
    demoEnded.status = .completed ∧
    (stepState 30 demoEnded (.restStartOp "h")).status = .active :=
  ⟨by decide, by decide⟩

/-- C3 amended: no operation ever returns a session to `waiting`, and every
operation except the REST start endpoint moves the status forward along
`waiting → active → completed`; the REST start endpoint alone can take a
`completed` session back to `active`. -/
theorem c3_status_monotone_except_rest_start (cfgT : ℚ) (s : SessionState)
    (op : Op) :
    ((stepState cfgT s op).status = .waiting → s.status = .waiting) ∧
    ((∀ v, op ≠ Op.restStartOp v) →
      statusRank s.status ≤ statusRank (stepState cfgT s op).status) := by
  cases op with
  | wsJoinOp u un now =>
    simp only [stepState, stepR]
    have h := wsJoin_status s u un now
    exact ⟨fun hx => by rw [← h]; exact hx,
      fun _ => le_of_eq (congrArg statusRank h).symm⟩
  | restJoinOp u un now =>
    simp only [stepState, stepR]
    have h := restJoin_status s u un now
    exact ⟨fun hx => by rw [← h]; exact hx,
      fun _ => le_of_eq (congrArg statusRank h).symm⟩
  | disconnectOp u =>
    simp only [stepState, stepR]
    have h := disconnect_status s u
    exact ⟨fun hx => by rw [← h]; exact hx,
      fun _ => le_of_eq (congrArg statusRank h).symm⟩
  | wsStartOp u tl =>
    simp only [stepState, stepR]
    rcases wsStart_status s u tl with h | ⟨hw, ha⟩
    · exact ⟨fun hx => by rw [← h]; exact hx,
        fun _ => le_of_eq (congrArg statusRank h).symm⟩
    · refine ⟨fun hx => ?_, fun _ => ?_⟩
      · rw [ha] at hx
        cases hx
      · rw [hw, ha]
        decide
  | restStartOp v =>
    simp only [stepState, stepR]
    refine ⟨fun hx => ?_, fun hno => absurd rfl (hno v)⟩
    rcases restStart_status s v with h | h
    · rw [← h]; exact hx
    · rw [h] at hx
      cases hx
  | endOp u =>
    simp only [stepState, stepR]
    rcases end_status s u with h | h
    · exact ⟨fun hx => by rw [← h]; exact hx,
        fun _ => le_of_eq (congrArg statusRank h).symm⟩
    · refine ⟨fun hx => ?_, fun _ => ?_⟩
      · rw [h] at hx
        cases hx
      · rw [h]
        cases hs : s.status <;> decide
  | submitOp u a ts =>
    simp only [stepState, stepR]
    have h := submit_status cfgT s u a ts
    exact ⟨fun hx => by rw [← h]; exact hx,
      fun _ => le_of_eq (congrArg statusRank h).symm⟩

/-- Witness for C3 amended: the host ending the waiting demo session is a
forward transition, and no operation yields `waiting` from the completed
demo session. -/
theorem c3_status_monotone_witness :
    ((stepState 30 demoStarted (.endOp "h")).status = .waiting →
      demoStarted.status = .waiting) ∧
    ((∀ v, Op.endOp "h" ≠ Op.restStartOp v) →
      statusRank demoStarted.status ≤ statusRank (stepState 30 demoStarted (.endOp "h")).status) :=
  c3_status_monotone_except_rest_start 30 demoStarted (.endOp "h")

end Queez
